import Mathlib

/-!
Verification development for the vmrunner repository: a shallow embedding of
the serial-console byte processing, the prompt scanner, the command-line
joiner, the pipe open-with-retry loop, the directional forwarding loops, the
HCS lifecycle wrappers, and the VM shutdown fallback, with theorems settling
the specification claims against the code.

Bytes are modelled as `Nat` (Go `byte` values): carriage return = 13,
line feed = 10, space = 32, hash = 35, dollar = 36.
-/

namespace VMRunner

/-- Byte values of a string's characters, for stating concrete stream inputs. -/
def bytes (s : String) : List Nat := s.data.map Char.toNat

/-! ## Line-ending transform (stdinToPipe, process.go lines 301-317)

The Go loop keeps a `prevCR` flag across bytes: a CR (13) emits LF (10) and
sets the flag, an LF (10) immediately after a CR is dropped, every other byte
is emitted unchanged and clears the flag. -/

/-- One pass of the stdinToPipe byte loop over a chunk, threading the
`prevCR` flag; returns the emitted bytes and the final flag. -/
def crlfStep (p : Bool) : List Nat → List Nat × Bool
  | [] => ([], p)
  | b :: rest =>
    if b = 13 then
      let r := crlfStep true rest
      (10 :: r.1, r.2)
    else if b = 10 ∧ p then
      crlfStep false rest
    else
      let r := crlfStep false rest
      (b :: r.1, r.2)

/-- The host-to-guest line-ending transform applied to a whole stream
(initial `prevCR` is false, as `prevCR := false` in the Go code). -/
def transform (s : List Nat) : List Nat := (crlfStep false s).1

/-- Modelled from the spec words for comparison: each byte is mapped looking
at the previous input byte — CR becomes LF, an LF whose previous input byte
was CR is dropped, all other bytes pass through. -/
def transformSpecAux (prev : Option Nat) : List Nat → List Nat
  | [] => []
  | b :: rest =>
    (if b = 13 then [10]
     else if b = 10 ∧ prev = some 13 then []
     else [b]) ++ transformSpecAux (some b) rest

/-- Spec-phrased transform: no byte precedes the first one. -/
def transformSpec (s : List Nat) : List Nat := transformSpecAux none s

/-! ## Prompt scanner (waitForPrompt / collectUntilPrompt, process.go 352-384)

Both loops read one byte at a time, forward it (to stdout resp. to `w`), and
return nil exactly when the byte just read is '#' (35) or '$' (36) and the
previous byte (`last` resp. `prev`, zero-initialised) was a space (32).
On a finite stream the model returns the forwarded bytes plus `true` when the
prompt was seen, or plus `false` when the stream was exhausted first (the
real loop would block or surface the read error there). -/

/-- waitForPrompt's loop: `last` is the previously read byte (initially 0).
Returns (bytes echoed to host output, prompt detected?). -/
def waitForPromptGo (last : Nat) : List Nat → List Nat × Bool
  | [] => ([], false)
  | b :: rest =>
    if (b = 35 ∨ b = 36) ∧ last = 32 then ([b], true)
    else
      let r := waitForPromptGo b rest
      (b :: r.1, r.2)

/-- waitForPrompt on a stream: `var last byte` starts at zero. -/
def waitForPrompt (s : List Nat) : List Nat × Bool := waitForPromptGo 0 s

/-- collectUntilPrompt's loop: identical scanning with `prev` in place of
`last`, writing to `w` instead of stdout. -/
def collectUntilPromptGo (prev : Nat) : List Nat → List Nat × Bool
  | [] => ([], false)
  | b :: rest =>
    if (b = 35 ∨ b = 36) ∧ prev = 32 then ([b], true)
    else
      let r := collectUntilPromptGo b rest
      (b :: r.1, r.2)

/-- collectUntilPrompt on a stream. -/
def collectUntilPrompt (s : List Nat) : List Nat × Bool := collectUntilPromptGo 0 s

/-- Spec-phrased readiness condition: somewhere in the stream a '#' (35) or
'$' (36) byte immediately follows a space (32). -/
def promptReady (s : List Nat) : Prop :=
  ∃ u c v, (c = 35 ∨ c = 36) ∧ s = u ++ 32 :: c :: v

/-! ## shellJoin (process.go 386-412)

Arguments are modelled as `List Char` (Go ranges over runes); the joined
command line is a `List Char`. -/

/-- containsSpace: true iff some rune of the argument is a space. -/
def containsSpace (s : List Char) : Bool := s.any (fun c => c = ' ')

/-- shellJoin's per-argument step: wrap in double quotes iff it contains a
space; no escaping of characters inside the argument. -/
def quoteArg (a : List Char) : List Char :=
  if containsSpace a then '"' :: a ++ ['"'] else a

/-- shellJoin: empty list gives the empty string, otherwise the quoted
arguments joined by single spaces (the Go loop prepends a space before every
argument except the first). -/
def shellJoin : List (List Char) → List Char
  | [] => []
  | [a] => quoteArg a
  | a :: b :: rest => quoteArg a ++ ' ' :: shellJoin (b :: rest)

/-- Spec-phrased joiner: intercalate a single space between the arguments,
each wrapped in double quotes exactly when it contains a space. -/
def shellJoinSpec (args : List (List Char)) : List Char :=
  List.intercalate [' '] (args.map quoteArg)

/-! ## Open-with-retry (openOverlappedPipeWithRetry / openSyncPipeWithRetry,
process.go 184-195 and 219-230)

Idealised timing: time is in milliseconds starting at 0 when the deadline
`timeout` is computed; an open attempt is instantaneous and each failed
attempt is followed by a 100 ms sleep. `avail t` tells whether an attempt at
time `t` succeeds. The model returns the attempt time on success (`some t`)
or `none` on timeout, paired with the time at which the function returns. -/

/-- The retry loop: while the current time is before the deadline, attempt;
on success return at once, otherwise sleep 100 ms and re-check. -/
def openRetryAux (avail : Nat → Bool) (deadline : Nat) (t : Nat) :
    Option Nat × Nat :=
  if t < deadline then
    if avail t then (some t, t)
    else openRetryAux avail deadline (t + 100)
  else (none, t)
termination_by deadline - t
decreasing_by omega

/-- openOverlappedPipeWithRetry / openSyncPipeWithRetry: deadline is
`now + timeout` with now = 0. -/
def openRetry (avail : Nat → Bool) (timeout : Nat) : Option Nat × Nat :=
  openRetryAux avail timeout 0

/-! ## Pipe-close classification and the forwarding loops
(isPipeClose / pipeToStdout / stdinToPipe, process.go 241-350) -/

/-- A Go error value as the loops can observe it: `io.EOF`, a
`syscall.Errno`, or any other error. -/
inductive GoError
  | ioEOF
  | errno (e : Nat)
  | generic (tag : Nat)
  deriving DecidableEq, Repr

/-- isPipeClose: io.EOF, ERROR_BROKEN_PIPE (109) or
ERROR_PIPE_NOT_CONNECTED (233). -/
def isPipeClose : GoError → Bool
  | .ioEOF => true
  | .errno e => e = 109 || e = 233
  | .generic _ => false

/-- Spec-phrased end-of-channel condition on the pipe. -/
def isEndOfChannel (e : GoError) : Prop :=
  e = .ioEOF ∨ e = .errno 109 ∨ e = .errno 233

instance (e : GoError) : Decidable (isEndOfChannel e) := by
  unfold isEndOfChannel; infer_instance

/-- Outcome of a forwarding loop: returned nil, or returned an error. -/
inductive LoopResult
  | ok
  | fail (e : GoError)
  deriving DecidableEq, Repr

/-- One event observed by pipeToStdout: an overlapped read completing with a
data chunk, or completing with an error. -/
inductive PipeReadEvent
  | chunk (bs : List Nat)
  | readErr (e : GoError)
  deriving DecidableEq, Repr

/-- pipeToStdout's loop over a finite prefix of read completions: chunks are
written to stdout verbatim and the loop continues; the first error ends the
loop — nil if `isPipeClose`, the error otherwise. `none` means the prefix
was exhausted with the loop still running. -/
def pipeToStdoutRun : List PipeReadEvent → List Nat × Option LoopResult
  | [] => ([], none)
  | .chunk bs :: rest =>
    let r := pipeToStdoutRun rest
    (bs ++ r.1, r.2)
  | .readErr e :: _ =>
    ([], some (if isPipeClose e then .ok else .fail e))

/-- The first read error in a pipe event stream, skipping data chunks. -/
def firstReadErr : List PipeReadEvent → Option GoError
  | [] => none
  | .chunk _ :: rest => firstReadErr rest
  | .readErr e :: _ => some e

/-- One iteration's inputs for stdinToPipe: the bytes the stdin read
returned (possibly empty), the result of the pipe write issued for this
iteration's transformed output (consulted only when that output is
non-empty; `none` = write succeeded), and the error the stdin read returned
alongside the bytes (`none` = no read error). Go reads can return both data
and an error; the code handles the data first, then the error. -/
structure StdinEvent where
  bs : List Nat
  werr : Option GoError
  rerr : Option GoError
  deriving DecidableEq, Repr

/-- stdinToPipe's loop over a finite prefix of iterations, threading the
`prevCR` flag of the line-ending transform. Returns the bytes written to the
pipe and the loop outcome (`none` = still running after the prefix). -/
def stdinToPipeRun (p : Bool) : List StdinEvent → List Nat × Option LoopResult
  | [] => ([], none)
  | ev :: rest =>
    let out := crlfStep p ev.bs
    if ev.bs.length > 0 ∧ out.1 ≠ [] then
      match ev.werr with
      | some e => (out.1, some (if isPipeClose e then .ok else .fail e))
      | none =>
        match ev.rerr with
        | some e => (out.1, some (if e = .ioEOF then .ok else .fail e))
        | none =>
          let r := stdinToPipeRun out.2 rest
          (out.1 ++ r.1, r.2)
    else
      match ev.rerr with
      | some e => ([], some (if e = .ioEOF then .ok else .fail e))
      | none =>
        let r := stdinToPipeRun out.2 rest
        r

/-! ## HCS lifecycle wrappers (vmcompute.go)

`HCS_OPERATION_PENDING = 0xC0370103`. Each wrapper is modelled over the
outcome of callback registration (`regOk`), the HRESULT `hr` and detail text
of the HCS call, and a wait oracle `wait : Nat → Bool` giving the result of
`waiter.Wait` as a function of the timeout in milliseconds it is invoked
with. Detail text is a `List Char`. -/

/-- HCS_OPERATION_PENDING. -/
def hcsPending : Nat := 0xC0370103

/-- Result of a lifecycle wrapper as the caller observes it. -/
inductive WrapResult
  | ok
  | errStatus (status : Nat) (detail : List Char)
  | errRegistration
  | errWait
  deriving DecidableEq, Repr

/-- HcsStartComputeSystem (vmcompute.go 251-284): register the waiter for
start-completed BEFORE the call; `hr` nonzero and not pending is a failure
carrying status and detail; pending waits up to 120 s; zero is success. -/
def hcsStartComputeSystem (regOk : Bool) (hr : Nat) (detail : List Char)
    (wait : Nat → Bool) : WrapResult :=
  if regOk = false then .errRegistration
  else if hr ≠ 0 ∧ hr ≠ hcsPending then .errStatus hr detail
  else if hr = hcsPending then (if wait 120000 then .ok else .errWait)
  else .ok

/-- HcsShutdownComputeSystem (vmcompute.go 289-320): same pattern, waiter
for system-exited, 30 s ceiling on pending. -/
def hcsShutdownComputeSystem (regOk : Bool) (hr : Nat) (detail : List Char)
    (wait : Nat → Bool) : WrapResult :=
  if regOk = false then .errRegistration
  else if hr ≠ 0 ∧ hr ≠ hcsPending then .errStatus hr detail
  else if hr = hcsPending then (if wait 30000 then .ok else .errWait)
  else .ok

/-- HcsTerminateComputeSystem (vmcompute.go 325-356): same pattern, waiter
for system-exited, 10 s ceiling on pending. -/
def hcsTerminateComputeSystem (regOk : Bool) (hr : Nat) (detail : List Char)
    (wait : Nat → Bool) : WrapResult :=
  if regOk = false then .errRegistration
  else if hr ≠ 0 ∧ hr ≠ hcsPending then .errStatus hr detail
  else if hr = hcsPending then (if wait 10000 then .ok else .errWait)
  else .ok

/-- HcsCreateComputeSystem (vmcompute.go 190-223): the call is issued first
(no handle exists to register on); nonzero non-pending is a failure with
status and detail; on pending, waitForSystemNotification registers the
waiter (can fail) and waits up to 60 s, closing the handle on failure. -/
def hcsCreateComputeSystem (hr : Nat) (detail : List Char) (regOk : Bool)
    (wait : Nat → Bool) : WrapResult :=
  if hr ≠ 0 ∧ hr ≠ hcsPending then .errStatus hr detail
  else if hr = hcsPending then
    (if regOk = false then .errRegistration
     else if wait 60000 then .ok else .errWait)
  else .ok

/-! ### Event ordering of the wrappers (for the pre-registration claim) -/

/-- Observable steps a lifecycle wrapper performs on the HCS interface. -/
inductive LifeEvent
  | register
  | hcsCall
  | waitEv
  | unregister
  | closeHandle
  deriving DecidableEq, Repr

/-- Event trace of HcsStartComputeSystem: registration first; if it fails,
no call is issued; otherwise the call, a wait only on pending, and the
deferred unregister on return. The trace shape is the same for
HcsShutdownComputeSystem and HcsTerminateComputeSystem. -/
def startEvents (regOk : Bool) (hr : Nat) : List LifeEvent :=
  if regOk = false then [.register]
  else [.register, .hcsCall] ++
    (if hr = hcsPending then [.waitEv] else []) ++ [.unregister]

/-- Event trace of HcsCreateComputeSystem: the call comes first; only a
pending outcome registers a waiter (inside waitForSystemNotification), waits,
and unregisters; a wait failure also closes the just-created handle. -/
def createEvents (hr : Nat) (regOk : Bool) (waitOk : Bool) : List LifeEvent :=
  if hr ≠ 0 ∧ hr ≠ hcsPending then [.hcsCall]
  else if hr = hcsPending then
    (if regOk = false then [.hcsCall, .register, .closeHandle]
     else if waitOk then [.hcsCall, .register, .waitEv, .unregister]
     else [.hcsCall, .register, .waitEv, .unregister, .closeHandle])
  else [.hcsCall]

/-! ## VM.Shutdown fallback (vm.go 61-79) -/

/-- Calls VM.Shutdown makes against the vmcompute facade. -/
inductive HcsCall
  | shutdown
  | terminate
  | close
  deriving DecidableEq, Repr

/-- VM.Shutdown: graceful shutdown; on its failure, terminate once — if the
terminate also fails, close the handle and return the terminate error;
otherwise (shutdown succeeded, or terminate succeeded) fall through to the
single close, whose result is returned. The Booleans give each underlying
call's success. Returns the call trace and whether Shutdown returned nil. -/
def vmShutdown (sdOk termOk closeOk : Bool) : List HcsCall × Bool :=
  if sdOk = false then
    if termOk = false then
      ([.shutdown, .terminate, .close], false)
    else
      ([.shutdown, .terminate, .close], closeOk)
  else
    ([.shutdown, .close], closeOk)

/-! ## Terminal mode restore (prepareRawConsole / stdinToPipe / cmdRun)

prepareRawConsole (part of process.go with raw-console support, lines
296-317) queries the console mode; on success it applies the raw mode and
hands back a restore closure. stdinToPipe defers that restore, so it runs
when stdinToPipe itself returns (normally or with an error). cmdRun's signal
handler (main.go 160-169) shuts the VM down and calls os.Exit(0), which
terminates the process without running deferred functions of other
goroutines. -/

/-- Observable actions touching the console mode and the session. -/
inductive TermAction
  | getMode
  | setRawMode
  | restoreMode
  | forwardLoop
  | recvSignal
  | shutdownVM
  | exitProcess
  deriving DecidableEq, Repr

/-- Trace of one stdinToPipe invocation that runs to its own return (normal
or error): when stdin is a console, the mode is captured and mutated before
the loop and the deferred restore runs at the return; when the mode query
fails (stdin not a console), nothing is mutated and no restore is
registered. -/
def stdinToPipeTrace (isConsole : Bool) : List TermAction :=
  if isConsole then
    [.getMode, .setRawMode, .forwardLoop, .restoreMode]
  else
    [.getMode, .forwardLoop]

/-- Trace of the interactive session in cmdRun when a host signal arrives
while the forwarding loops are running: stdinToPipe has already mutated the
console mode; the signal handler shuts the VM down and calls os.Exit(0),
ending the process without running the goroutine's deferred restore. -/
def cmdRunSignalTrace : List TermAction :=
  [.getMode, .setRawMode, .forwardLoop, .recvSignal, .shutdownVM,
   .exitProcess]

/-- Character list of a string, for stating concrete command-line inputs. -/
def chars (s : String) : List Char := s.data

/-- Event trace of HcsShutdownComputeSystem: registration first (for the
system-exited notification); if it fails no call is issued; otherwise the
call, a wait on pending, and the deferred unregister. -/
def shutdownEvents (regOk : Bool) (hr : Nat) : List LifeEvent :=
  if regOk = false then [.register]
  else [.register, .hcsCall] ++
    (if hr = hcsPending then [.waitEv] else []) ++ [.unregister]

/-- Event trace of HcsTerminateComputeSystem: registration first (for the
system-exited notification); if it fails no call is issued; otherwise the
call, a wait on pending, and the deferred unregister. -/
def terminateEvents (regOk : Bool) (hr : Nat) : List LifeEvent :=
  if regOk = false then [.register]
  else [.register, .hcsCall] ++
    (if hr = hcsPending then [.waitEv] else []) ++ [.unregister]

/-- Whether a trace performs a callback registration strictly before the HCS
call it guards. -/
def registersBeforeCall (evs : List LifeEvent) : Bool :=
  evs.contains .register && evs.contains .hcsCall &&
    Nat.blt (evs.indexOf .register) (evs.indexOf .hcsCall)

/-! ## Helper lemmas -/

theorem crlfStep_fst_eq_specAux : ∀ (s : List Nat) (p : Bool) (prev : Option Nat),
    (p = true ↔ prev = some 13) → (crlfStep p s).1 = transformSpecAux prev s := by
  intro s
  induction s with
  | nil => intro p prev _; simp [crlfStep, transformSpecAux]
  | cons b rest ih =>
    intro p prev hinv
    by_cases hb : b = 13
    · subst hb
      simp only [crlfStep, transformSpecAux, if_pos rfl]
      simp [ih true (some 13) (by simp)]
    · by_cases hbl : b = 10 ∧ p = true
      · obtain ⟨hb10, hp⟩ := hbl
        have hprev : prev = some 13 := hinv.mp hp
        subst hb10 hprev hp
        simp [crlfStep, transformSpecAux, ih false (some 10) (by simp)]
      · have hnp : ¬ (b = 10 ∧ prev = some 13) := by
          rintro ⟨h10, hpr⟩
          exact hbl ⟨h10, hinv.mpr hpr⟩
        simp only [crlfStep, transformSpecAux, if_neg hb]
        rw [if_neg (by simpa using hbl), if_neg (by simpa using hnp)]
        simp [ih false (some b) (by simp [hb])]

theorem crlfStep_no_cr : ∀ (s : List Nat) (p : Bool), 13 ∉ (crlfStep p s).1 := by
  intro s
  induction s with
  | nil => intro p; simp [crlfStep]
  | cons b rest ih =>
    intro p
    by_cases hb : b = 13
    · subst hb; simp [crlfStep, ih]
    · by_cases hbl : b = 10 ∧ p = true
      · simp [crlfStep, hb, hbl, ih]
      · simp only [crlfStep, if_neg hb]
        rw [if_neg (by simpa using hbl)]
        simp [hb, ih]
        omega

theorem crlfStep_id_of_no_cr : ∀ (s : List Nat), 13 ∉ s → (crlfStep false s).1 = s := by
  intro s
  induction s with
  | nil => intro _; simp [crlfStep]
  | cons b rest ih =>
    intro h
    simp only [List.mem_cons, not_or] at h
    have hb : ¬ b = 13 := fun hh => h.1 hh.symm
    simp [crlfStep, hb, ih h.2]

theorem promptReady_nil : ¬ promptReady ([] : List Nat) := by
  rintro ⟨u, c, v, _, h⟩
  cases u <;> simp at h

theorem promptReady_cons (b : Nat) (rest : List Nat) :
    promptReady (b :: rest) ↔
      (b = 32 ∧ ∃ c v, (c = 35 ∨ c = 36) ∧ rest = c :: v) ∨ promptReady rest := by
  constructor
  · rintro ⟨u, c, v, hc, h⟩
    cases u with
    | nil =>
      simp only [List.nil_append, List.cons.injEq] at h
      exact Or.inl ⟨h.1, c, v, hc, h.2⟩
    | cons x u =>
      simp only [List.cons_append, List.cons.injEq] at h
      exact Or.inr ⟨u, c, v, hc, h.2⟩
  · rintro (⟨hb, c, v, hc, hr⟩ | ⟨u, c, v, hc, h⟩)
    · exact ⟨[], c, v, hc, by simp [hb, hr]⟩
    · exact ⟨b :: u, c, v, hc, by simp [h]⟩

theorem waitForPromptGo_true_iff : ∀ (s : List Nat) (last : Nat),
    (waitForPromptGo last s).2 = true ↔
      (last = 32 ∧ ∃ c v, (c = 35 ∨ c = 36) ∧ s = c :: v) ∨ promptReady s := by
  intro s
  induction s with
  | nil =>
    intro last
    simp [waitForPromptGo, promptReady_nil]
  | cons b rest ih =>
    intro last
    by_cases htrig : (b = 35 ∨ b = 36) ∧ last = 32
    · rw [waitForPromptGo, if_pos htrig]
      constructor
      · intro _
        exact Or.inl ⟨htrig.2, b, rest, htrig.1, rfl⟩
      · intro _
        rfl
    · rw [waitForPromptGo, if_neg htrig]
      simp only
      rw [ih b, promptReady_cons]
      constructor
      · rintro (h | h)
        · exact Or.inr (Or.inl h)
        · exact Or.inr (Or.inr h)
      · rintro (⟨hl, c, v, hc, hcv⟩ | h)
        · rw [List.cons.injEq] at hcv
          have hb : b = 35 ∨ b = 36 := by rw [hcv.1]; exact hc
          exact absurd ⟨hb, hl⟩ htrig
        · exact h

theorem shellJoin_eq_spec_all : ∀ args, shellJoin args = shellJoinSpec args := by
  intro args
  match args with
  | [] => rfl
  | [a] => simp [shellJoin, shellJoinSpec, List.intercalate, List.intersperse]
  | a :: b :: rest =>
    have ih := shellJoin_eq_spec_all (b :: rest)
    simp [shellJoin, shellJoinSpec, List.intercalate, List.intersperse] at ih ⊢
    rw [ih]

theorem waitForPromptGo_echo : ∀ (s : List Nat) (last : Nat),
    (∃ t, s = (waitForPromptGo last s).1 ++ t) ∧
      ((waitForPromptGo last s).2 = false → (waitForPromptGo last s).1 = s) := by
  intro s
  induction s with
  | nil => intro last; simp [waitForPromptGo]
  | cons b rest ih =>
    intro last
    by_cases htrig : (b = 35 ∨ b = 36) ∧ last = 32
    · rw [waitForPromptGo, if_pos htrig]
      exact ⟨⟨rest, by simp⟩, by intro h; simp at h⟩
    · rw [waitForPromptGo, if_neg htrig]
      obtain ⟨⟨t, ht⟩, hfull⟩ := ih b
      refine ⟨⟨t, by simpa using ht⟩, ?_⟩
      intro h
      simp only at h ⊢
      rw [hfull h]

theorem collect_eq_wait : ∀ (s : List Nat) (prev : Nat),
    collectUntilPromptGo prev s = waitForPromptGo prev s := by
  intro s
  induction s with
  | nil => intro prev; rfl
  | cons b rest ih =>
    intro prev
    rw [collectUntilPromptGo, waitForPromptGo, ih b]

theorem openRetryAux_none_ge : ∀ (n : Nat) (avail : Nat → Bool) (d t : Nat),
    d - t ≤ n → (openRetryAux avail d t).1 = none → d ≤ (openRetryAux avail d t).2 := by
  intro n
  induction n with
  | zero =>
    intro avail d t hle _
    have hnlt : ¬ t < d := by omega
    rw [openRetryAux, if_neg hnlt]
    omega
  | succ n ih =>
    intro avail d t hle hnone
    by_cases hlt : t < d
    · by_cases hav : avail t = true
      · rw [openRetryAux, if_pos hlt, if_pos hav] at hnone
        simp at hnone
      · rw [openRetryAux, if_pos hlt, if_neg hav] at hnone ⊢
        exact ih avail d (t + 100) (by omega) hnone
    · rw [openRetryAux, if_neg hlt]
      omega

theorem openRetryAux_some_of_avail : ∀ (n : Nat) (avail : Nat → Bool) (d t : Nat),
    d - t ≤ n → (∃ k, t + 100 * k < d ∧ avail (t + 100 * k) = true) →
      (openRetryAux avail d t).1.isSome := by
  intro n
  induction n with
  | zero =>
    intro avail d t hle ⟨k, hk, _⟩
    omega
  | succ n ih =>
    intro avail d t hle ⟨k, hk, hav⟩
    have hlt : t < d := by omega
    by_cases hav0 : avail t = true
    · rw [openRetryAux, if_pos hlt, if_pos hav0]
      simp
    · rw [openRetryAux, if_pos hlt, if_neg hav0]
      refine ih avail d (t + 100) (by omega) ⟨k - 1, ?_, ?_⟩
      · cases k with
        | zero => exact absurd hav hav0
        | succ k => simpa [Nat.mul_succ] using (by omega : t + 100 + 100 * k < d)
      · cases k with
        | zero => exact absurd hav hav0
        | succ k =>
          have : t + 100 + 100 * (k + 1 - 1) = t + 100 * (k + 1) := by ring_nf; omega
          rw [this]
          exact hav

theorem isPipeClose_iff : ∀ e, isPipeClose e = true ↔ isEndOfChannel e := by
  intro e
  cases e with
  | ioEOF => simp [isPipeClose, isEndOfChannel]
  | errno n => simp [isPipeClose, isEndOfChannel]
  | generic t => simp [isPipeClose, isEndOfChannel]

theorem pipeToStdoutRun_verdict : ∀ (evs : List PipeReadEvent),
    (pipeToStdoutRun evs).2 =
      (firstReadErr evs).map (fun e => if isEndOfChannel e then .ok else .fail e) := by
  intro evs
  induction evs with
  | nil => rfl
  | cons ev rest ih =>
    cases ev with
    | chunk bs => simpa [pipeToStdoutRun, firstReadErr] using ih
    | readErr e =>
      simp only [pipeToStdoutRun, firstReadErr, Option.map_some]
      by_cases h : isEndOfChannel e
      · rw [if_pos ((isPipeClose_iff e).mpr h)]
        simp [h]
      · rw [if_neg (fun hh => h ((isPipeClose_iff e).mp hh))]
        simp [h]

/-- Claim C5: the host-to-guest line-ending transform maps every input byte
stream as the spec describes — each carriage-return byte is replaced by a
line-feed, a line-feed immediately following a carriage-return in the input
is dropped, and every other byte passes through unchanged — and in
particular transform("ls\r\n") = "ls\n", transform("ls\r") = "ls\n" and
transform("abc") = "abc". -/
theorem claim_C5_line_ending_transform :
    (∀ s : List Nat, transform s = transformSpec s) ∧
    transform (bytes "ls\r\n") = bytes "ls\n" ∧
    transform (bytes "ls\r") = bytes "ls\n" ∧
    transform (bytes "abc") = bytes "abc" := by
  refine ⟨fun s => crlfStep_fst_eq_specAux s false none (by simp), by decide,
    by decide, by decide⟩

/-- Claim C6: the line-ending transform is idempotent — for every byte
sequence s, transform(transform(s)) = transform(s). -/
theorem claim_C6_transform_idempotent :
    ∀ s : List Nat, transform (transform s) = transform s := by
  intro s
  unfold transform
  exact crlfStep_id_of_no_cr _ (crlfStep_no_cr s false)

/-- Claim C3: in VM.Shutdown, whenever the graceful shutdown call fails the
forced terminate is invoked exactly once afterward, and across every outcome
of the three underlying calls the compute-system handle is closed exactly
once — the call trace is [shutdown, close] when shutdown succeeds and
[shutdown, terminate, close] when it fails. -/
theorem claim_C3_shutdown_fallback :
    ∀ sdOk termOk closeOk : Bool,
      (vmShutdown sdOk termOk closeOk).1.count .close = 1 ∧
      (vmShutdown sdOk termOk closeOk).1.count .terminate
        = (if sdOk = true then 0 else 1) ∧
      (vmShutdown sdOk termOk closeOk).1
        = (if sdOk = true then [.shutdown, .close]
           else [.shutdown, .terminate, .close]) := by
  decide

/-- Claim C10: shellJoin joins the arguments with single spaces, wrapping an
argument in double quotes exactly when it contains a space character, with
no escaping of double quotes or other characters inside arguments, and
returns the empty string for an empty argument list: it coincides with
intercalating a single space between the per-argument quoted forms. -/
theorem claim_C10_shelljoin :
    (∀ args, shellJoin args = shellJoinSpec args) ∧
    shellJoin [] = [] ∧
    (∀ a, shellJoin [a]
      = if containsSpace a = true then '"' :: a ++ ['"'] else a) ∧
    shellJoin [chars "ls", chars "-la"] = chars "ls -la" ∧
    shellJoin [chars "echo", chars "hi x"] = chars "echo \"hi x\"" ∧
    shellJoin [chars "a\"b"] = chars "a\"b" ∧
    shellJoin [chars "a \"b"] = chars "\"a \"b\"" := by
  refine ⟨shellJoin_eq_spec_all, rfl, fun a => rfl, by decide, by decide,
    by decide, by decide⟩

/-- Counterexample to claim C1 as stated: on the stream "root@host:/# " the
scanner does NOT report ready, because the '#' is immediately preceded by
'/', not by a space; the scanner consumes the stream without triggering. -/
theorem claim_C1_counterexample :
    (waitForPrompt (bytes "root@host:/# ")).2 = false := by decide

/-- Claim C1 (amended): waitForPrompt and collectUntilPrompt consume the
guest-to-host stream one byte at a time, forwarding each byte read, and
return successfully exactly when the byte just read is '#' or '$' and the
immediately preceding byte was a space; consequently on "root@host:/# " the
scanner does not report ready (the '#' follows '/'), on a stream such as
"root@host:/ # " — with the space before the prompt character, as in a
busybox "/ # " prompt — it reports ready, and on "no prompt here" it never
returns successfully. -/
theorem claim_C1_prompt_scanner :
    (∀ s, ((waitForPrompt s).2 = true ↔ promptReady s)) ∧
    (∀ s, ∃ t, s = (waitForPrompt s).1 ++ t) ∧
    (∀ s, (waitForPrompt s).2 = false → (waitForPrompt s).1 = s) ∧
    (∀ prev s, collectUntilPromptGo prev s = waitForPromptGo prev s) ∧
    waitForPrompt (bytes "root@host:/# ") = (bytes "root@host:/# ", false) ∧
    waitForPrompt (bytes "root@host:/ # ") = (bytes "root@host:/ #", true) ∧
    waitForPrompt (bytes "no prompt here") = (bytes "no prompt here", false) := by
  refine ⟨fun s => ?_, fun s => (waitForPromptGo_echo s 0).1,
    fun s => (waitForPromptGo_echo s 0).2,
    fun prev s => collect_eq_wait s prev, by decide, by decide, by decide⟩
  simpa [waitForPrompt] using waitForPromptGo_true_iff s 0

/-- Witness for claim C1's theorem at a concrete input. -/
theorem claim_C1_witness :
    (waitForPrompt (bytes "no prompt here")).1 = bytes "no prompt here" :=
  claim_C1_prompt_scanner.2.2.1 (bytes "no prompt here") (by decide)

/-- Claim C2: for every lifecycle wrapper (create, start, shutdown,
terminate) the status HCS_OPERATION_PENDING (0xC0370103) is a non-error
third outcome — the wrapper returns success exactly when the call returns
status 0, or returns pending and the subsequent wait for the completion
notification (invoked with that operation's timeout: 60 s create, 120 s
start, 30 s shutdown, 10 s terminate) succeeds; every other nonzero status
is returned as a failure carrying the numeric status and the detail text. -/
theorem claim_C2_pending_tristate :
    ∀ (hr : Nat) (detail : List Char) (wait : Nat → Bool) (regOk : Bool),
      (hcsStartComputeSystem true hr detail wait = .ok ↔
        (hr = 0 ∨ (hr = hcsPending ∧ wait 120000 = true))) ∧
      (hcsShutdownComputeSystem true hr detail wait = .ok ↔
        (hr = 0 ∨ (hr = hcsPending ∧ wait 30000 = true))) ∧
      (hcsTerminateComputeSystem true hr detail wait = .ok ↔
        (hr = 0 ∨ (hr = hcsPending ∧ wait 10000 = true))) ∧
      (hcsCreateComputeSystem hr detail regOk wait = .ok ↔
        (hr = 0 ∨ (hr = hcsPending ∧ regOk = true ∧ wait 60000 = true))) ∧
      (hcsStartComputeSystem true hr detail wait = .errStatus hr detail ↔
        (hr ≠ 0 ∧ hr ≠ hcsPending)) ∧
      (hcsShutdownComputeSystem true hr detail wait = .errStatus hr detail ↔
        (hr ≠ 0 ∧ hr ≠ hcsPending)) ∧
      (hcsTerminateComputeSystem true hr detail wait = .errStatus hr detail ↔
        (hr ≠ 0 ∧ hr ≠ hcsPending)) ∧
      (hcsCreateComputeSystem hr detail regOk wait = .errStatus hr detail ↔
        (hr ≠ 0 ∧ hr ≠ hcsPending)) := by
  intro hr detail wait regOk
  unfold hcsStartComputeSystem hcsShutdownComputeSystem
    hcsTerminateComputeSystem hcsCreateComputeSystem
  refine ⟨?_, ?_, ?_, ?_, ?_, ?_, ?_, ?_⟩ <;>
    split_ifs <;> simp_all [hcsPending]

/-- Witness for claim C2's theorem at concrete inputs. -/
theorem claim_C2_witness :
    hcsStartComputeSystem true hcsPending [] (fun _ => true) = .ok ∧
    hcsCreateComputeSystem 5 ['x'] true (fun _ => true) = .errStatus 5 ['x'] := by
  constructor
  · exact (claim_C2_pending_tristate hcsPending [] (fun _ => true) true).1.mpr
      (Or.inr ⟨rfl, rfl⟩)
  · exact (claim_C2_pending_tristate 5 ['x'] (fun _ => true) true).2.2.2.2.2.2.2.mpr
      ⟨by decide, by decide⟩

/-- Counterexample to claim C4 as stated: for HcsCreateComputeSystem the
completion-callback registration is NOT performed before the HCS call — on
a pending outcome the trace is [call, register, wait, unregister], with the
registration strictly after the call. -/
theorem claim_C4_counterexample :
    registersBeforeCall (createEvents hcsPending true true) = false ∧
    createEvents hcsPending true true
      = [.hcsCall, .register, .waitEv, .unregister] := by decide

/-- Claim C4 (amended): for start, shutdown and terminate the
completion-callback registration on the system handle is performed strictly
before the HCS call is issued; for create the handle does not exist before
the call, so registration is never performed before it — the call is always
the first step, and a callback is registered (afterwards) exactly when the
call returns HCS_OPERATION_PENDING. -/
theorem claim_C4_preregistration :
    ∀ (hr : Nat) (regOk waitOk : Bool),
      registersBeforeCall (startEvents true hr) = true ∧
      registersBeforeCall (shutdownEvents true hr) = true ∧
      registersBeforeCall (terminateEvents true hr) = true ∧
      registersBeforeCall (createEvents hr regOk waitOk) = false ∧
      (createEvents hr regOk waitOk).head? = some .hcsCall ∧
      ((createEvents hr regOk waitOk).contains .register
        = decide (hr = hcsPending)) := by
  intro hr regOk waitOk
  by_cases hp : hr = hcsPending
  · subst hp
    cases regOk <;> cases waitOk <;> decide
  · have h1 : startEvents true hr = [.register, .hcsCall, .unregister] := by
      simp [startEvents, hp]
    have h2 : shutdownEvents true hr = [.register, .hcsCall, .unregister] := by
      simp [shutdownEvents, hp]
    have h3 : terminateEvents true hr = [.register, .hcsCall, .unregister] := by
      simp [terminateEvents, hp]
    have h4 : createEvents hr regOk waitOk = [.hcsCall] := by
      unfold createEvents
      by_cases h0 : hr = 0
      · simp [h0, hp, hcsPending]
      · simp [h0, hp]
    rw [h1, h2, h3, h4]
    refine ⟨by decide, by decide, by decide, by decide, by decide, by simp [hp]⟩

/-- Counterexample to claim C7 as stated: on interruption by a host signal
the console mode has been mutated (raw mode set) but the process path taken
by cmdRun's signal handler — shut the VM down, then os.Exit(0) — never runs
the deferred restore, so the original mode is not restored on that exit
path. -/
theorem claim_C7_counterexample :
    cmdRunSignalTrace.contains .setRawMode = true ∧
    cmdRunSignalTrace.contains .restoreMode = false := by decide

/-- Claim C7 (amended): when the terminal adapter has mutated the host
console input mode, the captured original mode is restored on the forwarding
loop's own exit paths — its normal return and its error return both end with
the deferred restore — and nothing is mutated or restored when stdin is not
a console; but on interruption by a host signal the handler exits the
process via os.Exit(0) without running the deferred restore, so the mode is
not restored on that path. -/
theorem claim_C7_mode_restore :
    (stdinToPipeTrace true).getLast? = some .restoreMode ∧
    (stdinToPipeTrace true).contains .setRawMode = true ∧
    (stdinToPipeTrace false).contains .setRawMode = false ∧
    (stdinToPipeTrace false).contains .restoreMode = false ∧
    cmdRunSignalTrace.contains .setRawMode = true ∧
    cmdRunSignalTrace.contains .restoreMode = false := by decide

/-- Claim C8: the console-channel open with retry attempts the open every
100 ms until the timeout deadline — a channel that becomes available after
250 ms succeeds with a 2 s budget (at the 300 ms attempt); if some attempt
before the deadline succeeds the open succeeds; and if no attempt ever
succeeds, failure is reported only at a time at least the full timeout
after the start, never earlier. -/
theorem claim_C8_open_retry :
    openRetry (fun t => decide (250 ≤ t)) 2000 = (some 300, 300) ∧
    openRetry (fun _ => false) 2000 = (none, 2000) ∧
    (∀ (avail : Nat → Bool) (timeout : Nat),
      (openRetry avail timeout).1 = none →
        timeout ≤ (openRetry avail timeout).2) ∧
    (∀ (avail : Nat → Bool) (timeout : Nat),
      (∃ k, 100 * k < timeout ∧ avail (100 * k) = true) →
        ((openRetry avail timeout).1).isSome = true) := by
  refine ⟨by simp [openRetry, openRetryAux], by simp [openRetry, openRetryAux],
    ?_, ?_⟩
  · intro avail timeout h
    exact openRetryAux_none_ge timeout avail timeout 0 (by omega) h
  · rintro avail timeout ⟨k, hk, hav⟩
    exact openRetryAux_some_of_avail timeout avail timeout 0 (by omega)
      ⟨k, by simpa using hk, by simpa using hav⟩

/-- Witness for claim C8's theorem at concrete inputs. -/
theorem claim_C8_witness :
    2000 ≤ (openRetry (fun _ => false) 2000).2 ∧
    ((openRetry (fun t => decide (250 ≤ t)) 2000).1).isSome = true := by
  constructor
  · exact claim_C8_open_retry.2.2.1 (fun _ => false) 2000
      (by simp [openRetry, openRetryAux])
  · exact claim_C8_open_retry.2.2.2 (fun t => decide (250 ≤ t)) 2000
      ⟨3, by decide, by decide⟩

/-- Claim C9: for both forwarding loops an end-of-channel condition —
io.EOF, ERROR_BROKEN_PIPE (109) or ERROR_PIPE_NOT_CONNECTED (233) on the
pipe, or EOF on host standard input — terminates the loop with a nil
result, while every other I/O error is returned as a failure: isPipeClose
recognises exactly the end-of-channel errors, pipeToStdout's outcome is
determined by its first read error under that classification, and
stdinToPipe returns nil for a pipe-close write error or an EOF read error
and the error itself otherwise. -/
theorem claim_C9_end_of_channel :
    (∀ e, isPipeClose e = true ↔ isEndOfChannel e) ∧
    (∀ evs, (pipeToStdoutRun evs).2 =
      (firstReadErr evs).map
        (fun e => if isEndOfChannel e then .ok else .fail e)) ∧
    (∀ (p : Bool) (ev : StdinEvent) (rest : List StdinEvent) (e : GoError),
      ev.bs.length > 0 → (crlfStep p ev.bs).1 ≠ [] → ev.werr = some e →
        (stdinToPipeRun p (ev :: rest)).2
          = some (if isEndOfChannel e then .ok else .fail e)) ∧
    (∀ (p : Bool) (ev : StdinEvent) (rest : List StdinEvent) (e : GoError),
      ev.werr = none → ev.rerr = some e →
        (stdinToPipeRun p (ev :: rest)).2
          = some (if e = .ioEOF then .ok else .fail e)) ∧
    (∀ (p : Bool) (ev : StdinEvent) (rest : List StdinEvent),
      ev.werr = none → ev.rerr = none →
        (stdinToPipeRun p (ev :: rest)).2
          = (stdinToPipeRun (crlfStep p ev.bs).2 rest).2) := by
  refine ⟨isPipeClose_iff, pipeToStdoutRun_verdict, ?_, ?_, ?_⟩
  · rintro p ⟨bs, werr, rerr⟩ rest e hlen hout hw
    simp only at hlen hout hw
    subst hw
    rw [stdinToPipeRun]
    simp only
    rw [if_pos ⟨hlen, hout⟩]
    by_cases h : isEndOfChannel e
    · rw [if_pos ((isPipeClose_iff e).mpr h), if_pos h]
    · rw [if_neg (fun hh => h ((isPipeClose_iff e).mp hh)), if_neg h]
  · rintro p ⟨bs, werr, rerr⟩ rest e hw hr
    simp only at hw hr
    subst hw hr
    rw [stdinToPipeRun]
    by_cases hc : (bs.length > 0 ∧ (crlfStep p bs).1 ≠ [])
    · rw [if_pos hc]
    · rw [if_neg hc]
  · rintro p ⟨bs, werr, rerr⟩ rest hw hr
    simp only at hw hr
    subst hw hr
    rw [stdinToPipeRun]
    by_cases hc : (bs.length > 0 ∧ (crlfStep p bs).1 ≠ [])
    · rw [if_pos hc]
    · rw [if_neg hc]

/-- Witness for claim C9's theorem at a concrete input. -/
theorem claim_C9_witness :
    (stdinToPipeRun false [⟨[108], none, some GoError.ioEOF⟩]).2
      = some LoopResult.ok := by
  have h := claim_C9_end_of_channel.2.2.2.1 false ⟨[108], none, some .ioEOF⟩ []
    GoError.ioEOF rfl rfl
  simpa using h

end VMRunner
